import Mathlib

/-! # Coefficient-order catalog, permutation codec and memory manager of libjxl

A shallow embedding of `lib/jxl/coeff_order.h` and
`lib/jxl/memory_manager_internal.h`.

* `size_t` is 64 bits wide: a `size_t` value is a natural number below `2 ^ 64`
  and `size_t` arithmetic is taken modulo `2 ^ 64` (`size_t_add`, `size_t_sub`,
  `size_t_mul`).  The build constants `kDCTBlockSize`,
  `kNumOrders` and `AcStrategy::kNumValidStrategies` are declared in headers that
  are not part of the sources at hand, so every definition that reads one takes
  it as an argument, and the two `static_assert`s of `coeff_order.h` appear as
  the predicates `static_assert_kCoeffOrderOffset` and
  `static_assert_kStrategyOrder`.
* C arrays are lists; reading outside an array (undefined in C++) yields `0`.
* Pointers are either `NULL` or a named target.
-/

namespace jxl

/-! ## `coeff_order.h`: the order catalog -/

/-- The table `kCoeffOrderOffset` (coeff_order.h:35); its entries get multiplied
by `kDCTBlockSize`. -/
def kCoeffOrderOffset : List Nat :=
  [0,    1,    2,    3,    4,    5,    6,    10,   14,   18,
   34,   50,   66,   68,   70,   72,   76,   80,   84,   92,
   100,  108,  172,  236,  300,  332,  364,  396,  652,  908,
   1164, 1292, 1420, 1548, 2572, 3596, 4620, 5132, 5644, 6156]

/-- The condition of the `static_assert` at coeff_order.h:41,
`3 * kNumOrders + 1 == sizeof(kCoeffOrderOffset) / sizeof(*kCoeffOrderOffset)`. -/
def static_assert_kCoeffOrderOffset (kNumOrders : Nat) : Prop :=
  3 * kNumOrders + 1 = kCoeffOrderOffset.length

instance (kNumOrders : Nat) : Decidable (static_assert_kCoeffOrderOffset kNumOrders) := by
  unfold static_assert_kCoeffOrderOffset; infer_instance

/-- Addition of two `size_t` values: the sum modulo `2 ^ 64`. -/
def size_t_add (a b : Nat) : Nat := (a + b) % 2 ^ 64

/-- Subtraction of two `size_t` values: the difference modulo `2 ^ 64`. -/
def size_t_sub (a b : Nat) : Nat := (a + 2 ^ 64 - b % 2 ^ 64) % 2 ^ 64

/-- Multiplication of two `size_t` values: the product modulo `2 ^ 64`. -/
def size_t_mul (a b : Nat) : Nat := (a * b) % 2 ^ 64

/-- The function `CoeffOrderOffset(order, c)` (coeff_order.h:45):
`kCoeffOrderOffset[3 * order + c] * kDCTBlockSize`, computed in `size_t`. -/
def CoeffOrderOffset (kDCTBlockSize : Nat) (order c : Nat) : Nat :=
  size_t_mul (kCoeffOrderOffset.getD (size_t_add (size_t_mul 3 order) c) 0) kDCTBlockSize

/-- The constant `kCoeffOrderSize` (coeff_order.h:49):
`kCoeffOrderOffset[3 * kNumOrders] * kDCTBlockSize`, computed in `size_t`. -/
def kCoeffOrderSize (kDCTBlockSize kNumOrders : Nat) : Nat :=
  size_t_mul (kCoeffOrderOffset.getD (size_t_mul 3 kNumOrders) 0) kDCTBlockSize

/-- The table `kStrategyOrder` (coeff_order.h:54): the order bucket of each AC
strategy. -/
def kStrategyOrder : List Nat :=
  [0, 1, 1, 1, 2, 3, 4, 4, 5,  5,  6,  6,  1,  1,
   1, 1, 1, 1, 7, 8, 8, 9, 10, 10, 11, 12, 12]

/-- The condition of the `static_assert` at coeff_order.h:59,
`AcStrategy::kNumValidStrategies == sizeof(kStrategyOrder) / sizeof(*kStrategyOrder)`. -/
def static_assert_kStrategyOrder (kNumValidStrategies : Nat) : Prop :=
  kNumValidStrategies = kStrategyOrder.length

instance (kNumValidStrategies : Nat) :
    Decidable (static_assert_kStrategyOrder kNumValidStrategies) := by
  unfold static_assert_kStrategyOrder; infer_instance

/-! ## `memory_manager_internal.h` -/

/-- A value of the function-pointer type `jpegxl_alloc_func`: `NULL`, the
address of `jxl::MemoryManagerDefaultAlloc`, or the address of another
function. -/
inductive AllocFunc where
  | NULL
  | MemoryManagerDefaultAlloc
  | custom (id : Nat)
  deriving DecidableEq, Repr

/-- A value of the function-pointer type `jpegxl_free_func`: `NULL`, the address
of `jxl::MemoryManagerDefaultFree`, or the address of another function. -/
inductive FreeFunc where
  | NULL
  | MemoryManagerDefaultFree
  | custom (id : Nat)
  deriving DecidableEq, Repr

/-- A `void*`: `NULL` or an address. -/
inductive VoidPtr where
  | NULL
  | addr (a : Nat)
  deriving DecidableEq, Repr

/-- The struct `JxlMemoryManager` (`jxl/memory_manager.h`), with its three
members; the member `opaque` is called `opaquePtr` here. -/
structure JxlMemoryManager where
  opaquePtr : VoidPtr
  alloc : AllocFunc
  free : FreeFunc
  deriving DecidableEq, Repr

/-- The result of `memset(self, 0, sizeof(*self))`: every member is `NULL`. -/
def JxlMemoryManager.zeroed : JxlMemoryManager :=
  { opaquePtr := VoidPtr.NULL, alloc := AllocFunc.NULL, free := FreeFunc.NULL }

/-- The function `MemoryManagerInit(self, memory_manager)`
(memory_manager_internal.h:43).  `memory_manager = none` is the `NULL`
argument.  The result is the returned `Status` (`true` is success) together
with the contents of `*self` on return; the previous contents of `*self` are
overwritten on every path. -/
def MemoryManagerInit (_self : JxlMemoryManager)
    (memory_manager : Option JxlMemoryManager) : Bool × JxlMemoryManager :=
  -- if (memory_manager) *self = *memory_manager; else memset(self, 0, ...)
  let self₁ : JxlMemoryManager :=
    match memory_manager with
    | some m => m
    | none => JxlMemoryManager.zeroed
  -- if (!self->alloc != !self->free) return false;
  if (decide (self₁.alloc = AllocFunc.NULL)) != (decide (self₁.free = FreeFunc.NULL)) then
    (false, self₁)
  else
    -- if (!self->alloc) self->alloc = jxl::MemoryManagerDefaultAlloc;
    let self₂ : JxlMemoryManager :=
      if self₁.alloc = AllocFunc.NULL then
        { self₁ with alloc := AllocFunc.MemoryManagerDefaultAlloc }
      else self₁
    -- if (!self->free) self->free = jxl::MemoryManagerDefaultFree;
    let self₃ : JxlMemoryManager :=
      if self₂.free = FreeFunc.NULL then
        { self₂ with free := FreeFunc.MemoryManagerDefaultFree }
      else self₂
    (true, self₃)

/-! ## The permutation codec

`EncodePermutation` and `DecodePermutation` are declared in `coeff_order.h`
(lines 86 and 90); their bodies are in a translation unit that is not part of
the sources at hand.  The definitions of this section follow section 4.4 of the
specification. -/

/-- Modelled from the spec: the failing `Status` of the decoder, which the
specification calls `FormatError` (the body of `DecodePermutation` is not in the
sources). -/
inductive DecodeError where
  | FormatError
  deriving DecidableEq, Repr

/-- Modelled from the spec: the bit stream behind `BitWriter` and `BitReader`,
as the list of bits written so far, respectively still to be read. -/
abbrev Bits := List Bool

/-- Modelled from the spec: the "variable-length, context-free integer code" of
a rank symbol, missing from the sources.  `write remaining rank` is the bit
string of `rank` when `remaining` candidates are still available; `read
remaining bits` reads one symbol from the front of `bits` and fails with `none`
when the reader runs out of data. -/
structure RankCode where
  write : Nat → Nat → Bits
  read : Nat → Bits → Option (Nat × Bits)

/-- Modelled from the spec: the contract of the bit reader, "read back values
written by the bit writer in the same encodings", for the rank symbols, which
are below the number of remaining candidates. -/
def RankCode.ReadsBack (code : RankCode) : Prop :=
  ∀ remaining rank rest, rank < remaining →
    code.read remaining (code.write remaining rank ++ rest) = some (rank, rest)

/-- Modelled from the spec: the Lehmer-code ranks of the slots `slots`, given
the ordered set `available` of still available positions: the symbol of a slot
is the 0-based position of its value among the remaining candidates, and the
value then leaves the set. -/
def LehmerRanksFrom (available : List Nat) : List Nat → List Nat
  | [] => []
  | v :: slots => available.indexOf v :: LehmerRanksFrom (available.erase v) slots

/-- Modelled from the spec: the rank sequence of `order[skip..size)`; the
available set starts as `{skip, ..., size - 1}`. -/
def LehmerRanks (order : List Nat) (skip size : Nat) : List Nat :=
  LehmerRanksFrom (List.range' skip (size - skip)) ((order.take size).drop skip)

/-- Modelled from the spec: writing a rank sequence; each symbol is coded for
the number of candidates remaining at its slot, which shrinks by one per
slot. -/
def WriteRanks (code : RankCode) : Nat → List Nat → Bits → Bits
  | _, [], writer => writer
  | remaining, rank :: ranks, writer =>
    WriteRanks code (remaining - 1) ranks (writer ++ code.write remaining rank)

/-- Modelled from the spec: `EncodePermutation(order, skip, size, writer)`,
whose body is not in the sources: the ranks of `order[skip..size)` are appended
to the writer. -/
def EncodePermutation (code : RankCode) (order : List Nat) (skip size : Nat)
    (writer : Bits) : Bits :=
  WriteRanks code (size - skip) (LehmerRanks order skip size) writer

/-- Modelled from the spec: the decoding loop over `n` slots: read a rank, fail
with `FormatError` when the reader is exhausted or the rank is not below the
number of remaining candidates, otherwise find and remove the candidate of that
rank. -/
def DecodeSlots (code : RankCode) :
    Nat → List Nat → Bits → Except DecodeError (List Nat × Bits)
  | 0, _, br => .ok ([], br)
  | n + 1, available, br =>
    match code.read available.length br with
    | none => .error DecodeError.FormatError
    | some (rank, br₁) =>
      if available.length ≤ rank then .error DecodeError.FormatError
      else
        match DecodeSlots code n (available.eraseIdx rank) br₁ with
        | .error e => .error e
        | .ok (picked, br₂) => .ok (available.getD rank 0 :: picked, br₂)

/-- Modelled from the spec: `DecodePermutation(skip, size, order, br)`, whose
body is not in the sources.  The result is the decoded `order[0..size)`, whose
first `skip` entries are the identity and are not transmitted, together with
the reader after the last symbol. -/
def DecodePermutation (code : RankCode) (skip size : Nat) (br : Bits) :
    Except DecodeError (List Nat × Bits) :=
  match DecodeSlots code (size - skip) (List.range' skip (size - skip)) br with
  | .error e => .error e
  | .ok (picked, br₁) => .ok (List.range skip ++ picked, br₁)

/-- Modelled from the spec: the bit writer capability "append an unsigned
integer value using a specified number of bits", least significant bit
first. -/
def WriteBits : Nat → Nat → Bits
  | 0, _ => []
  | n + 1, v => (v % 2 == 1) :: WriteBits n (v / 2)

/-- Modelled from the spec: the bit reader capability matching `WriteBits`; it
"reports an error condition when insufficient bits remain". -/
def ReadBits : Nat → Bits → Option (Nat × Bits)
  | 0, bits => some (0, bits)
  | _ + 1, [] => none
  | n + 1, b :: bits =>
    match ReadBits n bits with
    | none => none
    | some (v, rest) => some (2 * v + (if b then 1 else 0), rest)

/-- Modelled from the spec: the bound `⌈log2(remaining count)⌉` on the bits of
a symbol: the least `k` with `n ≤ 2 ^ k`. -/
def CeilLog2 (n : Nat) : Nat := ((List.range n).find? (fun k => n ≤ 2 ^ k)).getD 0

/-- Modelled from the spec: one integer code that meets the description of the
specification: every rank is written with `⌈log2(remaining count)⌉` bits. -/
def fixedWidthCode : RankCode :=
  { write := fun remaining rank => WriteBits (CeilLog2 remaining) rank
    read := fun remaining bits => ReadBits (CeilLog2 remaining) bits }

/-! ## The order builder

`ComputeCoeffOrder` is declared in `coeff_order.h` (line 70); its body is in a
translation unit that is not part of the sources at hand.  The definitions of
this section follow section 4.3 of the specification. -/

/-- Modelled from the spec: the sort key of step 2, "lower zero-count comes
first". -/
def FewerZeros (zeros : Nat → Nat) (a b : Nat) : Prop := zeros a ≤ zeros b

instance (zeros : Nat → Nat) : DecidableRel (FewerZeros zeros) :=
  fun a b => Nat.decLe (zeros a) (zeros b)

instance (zeros : Nat → Nat) : IsTotal Nat (FewerZeros zeros) :=
  ⟨fun a b => Nat.le_total (zeros a) (zeros b)⟩

instance (zeros : Nat → Nat) : IsTrans Nat (FewerZeros zeros) :=
  ⟨fun _ _ _ hab hbc => Nat.le_trans hab hbc⟩

/-- Modelled from the spec: steps 2 and 3 of section 4.3 for one sub-array of
`size` positions: "the leading `skip` positions are forced to identity and
excluded from the sort"; the other natural positions are stable-sorted by zero
count, lower count first. -/
def SortedOrder (zeros : Nat → Nat) (skip size : Nat) : List Nat :=
  List.range (min skip size)
    ++ (List.range' skip (size - skip)).insertionSort (FewerZeros zeros)

/-- Modelled from the spec: storing a sub-array into the flat order array
(`coeff_order_t* order`, a map from index to element) at `offset`. -/
def WriteSubArray (order : Nat → Nat) (offset : Nat) (sub : List Nat) : Nat → Nat :=
  fun i => if offset ≤ i ∧ i < offset + sub.length then sub.getD (i - offset) 0 else order i

/-- Modelled from the spec: the `size` elements of the flat order array from
`offset` on. -/
def ReadSubArray (order : Nat → Nat) (offset size : Nat) : List Nat :=
  (List.range size).map (fun i => order (offset + i))

/-- The table has 40 entries. -/
theorem kCoeffOrderOffset_length : kCoeffOrderOffset.length = 40 := rfl

/-- The table has 27 entries. -/
theorem kStrategyOrder_length : kStrategyOrder.length = 27 := rfl

/-- The `static_assert` on `kCoeffOrderOffset` fixes `kNumOrders`. -/
theorem kNumOrders_eq {kNumOrders : Nat} (h : static_assert_kCoeffOrderOffset kNumOrders) :
    kNumOrders = 13 := by
  have h40 := kCoeffOrderOffset_length
  unfold static_assert_kCoeffOrderOffset at h
  omega

/-- Neighbouring table entries increase. -/
theorem kCoeffOrderOffset_succ :
    ∀ i, i < 39 → kCoeffOrderOffset.getD i 0 < kCoeffOrderOffset.getD (i + 1) 0 := by
  decide

/-- The table is strictly increasing over all of its 40 entries. -/
theorem kCoeffOrderOffset_lt {i j : Nat} (hij : i < j) (hj : j < 40) :
    kCoeffOrderOffset.getD i 0 < kCoeffOrderOffset.getD j 0 := by
  induction j with
  | zero => omega
  | succ k ih =>
    have hstep := kCoeffOrderOffset_succ k (by omega)
    rcases Nat.lt_succ_iff_lt_or_eq.mp hij with hlt | heq
    · exact lt_trans (ih hlt (by omega)) hstep
    · subst heq; exact hstep

/-- The table is monotone. -/
theorem kCoeffOrderOffset_le {i j : Nat} (hij : i ≤ j) (hj : j < 40) :
    kCoeffOrderOffset.getD i 0 ≤ kCoeffOrderOffset.getD j 0 := by
  rcases Nat.lt_or_eq_of_le hij with h | h
  · exact le_of_lt (kCoeffOrderOffset_lt h hj)
  · subst h; exact le_rfl

/-- No table entry exceeds the last one. -/
theorem kCoeffOrderOffset_le_last (i : Nat) :
    kCoeffOrderOffset.getD i 0 ≤ kCoeffOrderOffset.getD 39 0 := by
  rcases Nat.lt_or_ge i 40 with h | h
  · exact kCoeffOrderOffset_le (by omega) (by decide)
  · rw [List.getD_eq_default _ _ (by rw [kCoeffOrderOffset_length]; exact h)]
    exact Nat.zero_le _

/-- The index `3 * order + c` does not wrap inside the table. -/
theorem size_t_index {o c : Nat} (h : 3 * o + c < 40) :
    size_t_add (size_t_mul 3 o) c = 3 * o + c := by
  unfold size_t_add size_t_mul
  omega

/-- Inside the table `CoeffOrderOffset` is the scaled entry modulo `2 ^ 64`. -/
theorem CoeffOrderOffset_eq_mod (K : Nat) {o c : Nat} (h : 3 * o + c < 40) :
    CoeffOrderOffset K o c = (kCoeffOrderOffset.getD (3 * o + c) 0 * K) % 2 ^ 64 := by
  unfold CoeffOrderOffset
  rw [size_t_index h]
  rfl

/-- A scaled table entry does not wrap when the scaled last entry does not. -/
theorem size_t_mul_eq_exact {K : Nat} (hfit : kCoeffOrderOffset.getD 39 0 * K < 2 ^ 64)
    (i : Nat) : size_t_mul (kCoeffOrderOffset.getD i 0) K = kCoeffOrderOffset.getD i 0 * K := by
  unfold size_t_mul
  apply Nat.mod_eq_of_lt
  exact lt_of_le_of_lt (Nat.mul_le_mul_right K (kCoeffOrderOffset_le_last i)) hfit

/-- With a `kCoeffOrderSize` that does not wrap, `CoeffOrderOffset` is the exact
scaled entry; this is so for the 8x8 block size `kDCTBlockSize = 64`. -/
theorem CoeffOrderOffset_eq_exact {K : Nat} (hfit : kCoeffOrderOffset.getD 39 0 * K < 2 ^ 64)
    {o c : Nat} (h : 3 * o + c < 40) :
    CoeffOrderOffset K o c = kCoeffOrderOffset.getD (3 * o + c) 0 * K := by
  unfold CoeffOrderOffset
  rw [size_t_index h]
  exact size_t_mul_eq_exact hfit _

/-- An offset does not wrap when a later scaled entry of the table does not. -/
theorem CoeffOrderOffset_eq_exact_of_le {K : Nat} {o c j : Nat} (hij : 3 * o + c ≤ j)
    (hj : j < 40) (hfit : kCoeffOrderOffset.getD j 0 * K < 2 ^ 64) :
    CoeffOrderOffset K o c = kCoeffOrderOffset.getD (3 * o + c) 0 * K := by
  rw [CoeffOrderOffset_eq_mod K (by omega)]
  apply Nat.mod_eq_of_lt
  exact lt_of_le_of_lt (Nat.mul_le_mul_right K (kCoeffOrderOffset_le hij hj)) hfit

/-- With a product that does not wrap, `kCoeffOrderSize` is the exact scaled last
entry. -/
theorem kCoeffOrderSize_eq_exact {K : Nat} (hfit : kCoeffOrderOffset.getD 39 0 * K < 2 ^ 64) :
    kCoeffOrderSize K 13 = kCoeffOrderOffset.getD 39 0 * K := by
  unfold kCoeffOrderSize
  have h39 : size_t_mul 3 13 = 39 := by decide
  rw [h39]
  exact size_t_mul_eq_exact hfit _

/-- C2 (amended): the entries of `kCoeffOrderOffset` are strictly increasing
(`kCoeffOrderOffset[i] < kCoeffOrderOffset[i+1]` for all `i < 39`), and hence,
for every positive `kDCTBlockSize` for which the largest of the offsets, that of
the last pair `(kNumOrders - 1, 2)`, does not wrap in `size_t`
(`kCoeffOrderOffset[3 * kNumOrders - 1] * kDCTBlockSize < 2 ^ 64`),
`CoeffOrderOffset(order, c)` is strictly increasing in the flat index
`3 * order + c` over `order < kNumOrders = 13`, `c < 3`. -/
theorem CoeffOrderOffset_strictly_increasing (kDCTBlockSize kNumOrders : Nat)
    (hpos : 0 < kDCTBlockSize) (hassert : static_assert_kCoeffOrderOffset kNumOrders)
    (hfit : kCoeffOrderOffset.getD (3 * kNumOrders - 1) 0 * kDCTBlockSize < 2 ^ 64) :
    kCoeffOrderOffset.length = 40 ∧
    (∀ i, i < 39 → kCoeffOrderOffset.getD i 0 < kCoeffOrderOffset.getD (i + 1) 0) ∧
    kNumOrders = 13 ∧
    (∀ order c order' c', order < kNumOrders → c < 3 → order' < kNumOrders → c' < 3 →
      3 * order + c < 3 * order' + c' →
      CoeffOrderOffset kDCTBlockSize order c < CoeffOrderOffset kDCTBlockSize order' c') := by
  have h13 := kNumOrders_eq hassert
  subst h13
  refine ⟨rfl, kCoeffOrderOffset_succ, rfl, ?_⟩
  intro o c o' c' ho hc ho' hc' hlt
  have hfit38 : kCoeffOrderOffset.getD 38 0 * kDCTBlockSize < 2 ^ 64 := hfit
  rw [CoeffOrderOffset_eq_exact_of_le (j := 38) (by omega) (by decide) hfit38,
    CoeffOrderOffset_eq_exact_of_le (j := 38) (by omega) (by decide) hfit38]
  exact Nat.mul_lt_mul_of_pos_right (kCoeffOrderOffset_lt hlt (by omega)) hpos

/-- The offsets at the block size of the codec, `kDCTBlockSize = 64`: the last
channel of bucket 2 lies before bucket 3, and the first sub-array before the
last. -/
theorem CoeffOrderOffset_strictly_increasing_witness :
    0 < 64 ∧ static_assert_kCoeffOrderOffset 13 ∧
    kCoeffOrderOffset.getD (3 * 13 - 1) 0 * 64 < 2 ^ 64 ∧
    CoeffOrderOffset 64 2 2 < CoeffOrderOffset 64 3 0 ∧
    CoeffOrderOffset 64 0 0 < CoeffOrderOffset 64 12 2 :=
  ⟨by decide, by decide, by decide,
   (CoeffOrderOffset_strictly_increasing 64 13 (by decide) (by decide) (by decide)).2.2.2
     2 2 3 0 (by decide) (by decide) (by decide) (by decide) (by decide),
   (CoeffOrderOffset_strictly_increasing 64 13 (by decide) (by decide) (by decide)).2.2.2
     0 0 12 2 (by decide) (by decide) (by decide) (by decide) (by decide)⟩

/-- C2 as stated fails: `kDCTBlockSize = 2 ^ 63` is positive, yet the `size_t`
product wraps: `CoeffOrderOffset(0, 1) = 2 ^ 63` and `CoeffOrderOffset(0, 2) = 0`,
so the offset falls from flat index 1 to flat index 2. -/
theorem CoeffOrderOffset_not_increasing_at_wrap :
    0 < 2 ^ 63 ∧ static_assert_kCoeffOrderOffset 13 ∧
    3 * 0 + 1 < 3 * 0 + 2 ∧
    CoeffOrderOffset (2 ^ 63) 0 1 = 2 ^ 63 ∧
    CoeffOrderOffset (2 ^ 63) 0 2 = 0 ∧
    ¬ (CoeffOrderOffset (2 ^ 63) 0 1 < CoeffOrderOffset (2 ^ 63) 0 2) := by
  decide

/-- C3 (amended): for positive `kDCTBlockSize` for which `kCoeffOrderSize` does
not wrap in `size_t` (`kCoeffOrderOffset[3 * kNumOrders] * kDCTBlockSize
< 2 ^ 64`), every pair `(order, c)` with `order < 13`, `c < 3` owns the non-empty
range from `CoeffOrderOffset(order, c)` to
`kCoeffOrderOffset[3 * order + c + 1] * kDCTBlockSize`, which ends at or before
`kCoeffOrderSize`; the range of `(0, 0)` starts at `0`; and no index lies in the
half-open ranges of two distinct pairs. -/
theorem CoeffOrder_ranges_disjoint (kDCTBlockSize kNumOrders : Nat)
    (hpos : 0 < kDCTBlockSize) (hassert : static_assert_kCoeffOrderOffset kNumOrders)
    (hfit : kCoeffOrderOffset.getD (3 * kNumOrders) 0 * kDCTBlockSize < 2 ^ 64) :
    kNumOrders = 13 ∧
    (∀ order c, order < kNumOrders → c < 3 →
      CoeffOrderOffset kDCTBlockSize order c
          < size_t_mul (kCoeffOrderOffset.getD (3 * order + c + 1) 0) kDCTBlockSize ∧
      size_t_mul (kCoeffOrderOffset.getD (3 * order + c + 1) 0) kDCTBlockSize
          ≤ kCoeffOrderSize kDCTBlockSize kNumOrders) ∧
    CoeffOrderOffset kDCTBlockSize 0 0 = 0 ∧
    (∀ order c order' c', order < kNumOrders → c < 3 → order' < kNumOrders → c' < 3 →
      (order, c) ≠ (order', c') →
      ∀ x, ¬ (CoeffOrderOffset kDCTBlockSize order c ≤ x ∧
              x < size_t_mul (kCoeffOrderOffset.getD (3 * order + c + 1) 0) kDCTBlockSize ∧
              CoeffOrderOffset kDCTBlockSize order' c' ≤ x ∧
              x < size_t_mul (kCoeffOrderOffset.getD (3 * order' + c' + 1) 0)
                    kDCTBlockSize)) := by
  have h13 := kNumOrders_eq hassert
  subst h13
  have hmul : ∀ {i j : Nat}, i ≤ j → j < 40 →
      kCoeffOrderOffset.getD i 0 * kDCTBlockSize ≤ kCoeffOrderOffset.getD j 0 * kDCTBlockSize :=
    fun hij hj => Nat.mul_le_mul_right _ (kCoeffOrderOffset_le hij hj)
  refine ⟨rfl, ?_, ?_, ?_⟩
  · intro o c ho hc
    rw [CoeffOrderOffset_eq_exact hfit (by omega), size_t_mul_eq_exact hfit,
      kCoeffOrderSize_eq_exact hfit]
    constructor
    · exact Nat.mul_lt_mul_of_pos_right (kCoeffOrderOffset_lt (by omega) (by omega)) hpos
    · exact hmul (by omega) (by omega)
  · rw [CoeffOrderOffset_eq_exact hfit (by omega)]
    simp [kCoeffOrderOffset]
  · intro o c o' c' ho hc ho' hc' hne x hx
    obtain ⟨h1, h2, h3, h4⟩ := hx
    rw [CoeffOrderOffset_eq_exact hfit (by omega)] at h1 h3
    rw [size_t_mul_eq_exact hfit] at h2 h4
    have hidx : 3 * o + c ≠ 3 * o' + c' := by
      intro h
      apply hne
      have ho_eq : o = o' := by omega
      have hc_eq : c = c' := by omega
      rw [ho_eq, hc_eq]
    rcases Nat.lt_or_gt_of_ne hidx with hlt | hgt
    · have := hmul (i := 3 * o + c + 1) (j := 3 * o' + c') (by omega) (by omega)
      omega
    · have := hmul (i := 3 * o' + c' + 1) (j := 3 * o + c) (by omega) (by omega)
      omega

/-- The ranges at `kDCTBlockSize = 64`: channel 1 of bucket 2 is the range from
640 to 896, inside the array, and index 640 is not in the range of channel 0. -/
theorem CoeffOrder_ranges_disjoint_witness :
    0 < 64 ∧ static_assert_kCoeffOrderOffset 13 ∧
    kCoeffOrderOffset.getD (3 * 13) 0 * 64 < 2 ^ 64 ∧
    (CoeffOrderOffset 64 2 1 < size_t_mul (kCoeffOrderOffset.getD (3 * 2 + 1 + 1) 0) 64 ∧
     size_t_mul (kCoeffOrderOffset.getD (3 * 2 + 1 + 1) 0) 64 ≤ kCoeffOrderSize 64 13) ∧
    ¬ (CoeffOrderOffset 64 2 1 ≤ 640 ∧
       640 < size_t_mul (kCoeffOrderOffset.getD (3 * 2 + 1 + 1) 0) 64 ∧
       CoeffOrderOffset 64 2 0 ≤ 640 ∧
       640 < size_t_mul (kCoeffOrderOffset.getD (3 * 2 + 0 + 1) 0) 64) :=
  ⟨by decide, by decide, by decide,
   (CoeffOrder_ranges_disjoint 64 13 (by decide) (by decide) (by decide)).2.1 2 1
     (by decide) (by decide),
   (CoeffOrder_ranges_disjoint 64 13 (by decide) (by decide) (by decide)).2.2.2 2 1 2 0
     (by decide) (by decide) (by decide) (by decide) (by decide) 640⟩

/-- C3 as stated fails: `kDCTBlockSize = 2 ^ 63` is positive, yet the `size_t`
products wrap: `kCoeffOrderSize` is `0`, so the range of `(0, 0)`, which ends at
`2 ^ 63`, does not stay inside the array; and the ranges of the distinct pairs
`(0, 0)` and `(0, 2)` both run from `0` to `2 ^ 63`, so index `0` lies in
both. -/
theorem CoeffOrder_ranges_overlap_at_wrap :
    0 < 2 ^ 63 ∧ static_assert_kCoeffOrderOffset 13 ∧
    kCoeffOrderSize (2 ^ 63) 13 = 0 ∧
    size_t_mul (kCoeffOrderOffset.getD (3 * 0 + 0 + 1) 0) (2 ^ 63) = 2 ^ 63 ∧
    ¬ (size_t_mul (kCoeffOrderOffset.getD (3 * 0 + 0 + 1) 0) (2 ^ 63)
        ≤ kCoeffOrderSize (2 ^ 63) 13) ∧
    ((0 : Nat), (0 : Nat)) ≠ (0, 2) ∧
    (CoeffOrderOffset (2 ^ 63) 0 0 ≤ 0 ∧
     0 < size_t_mul (kCoeffOrderOffset.getD (3 * 0 + 0 + 1) 0) (2 ^ 63) ∧
     CoeffOrderOffset (2 ^ 63) 0 2 ≤ 0 ∧
     0 < size_t_mul (kCoeffOrderOffset.getD (3 * 0 + 2 + 1) 0) (2 ^ 63)) := by
  decide

/-- Every entry of `kStrategyOrder` is below 13. -/
theorem kStrategyOrder_lt : ∀ s, s < 27 → kStrategyOrder.getD s 0 < 13 := by
  decide

/-- C4: `kStrategyOrder` has exactly `AcStrategy::kNumValidStrategies = 27`
entries, each of them a bucket id below `kNumOrders = 13`, so for every channel
`c < 3` the indices `3 * kStrategyOrder[s] + c` and `3 * kStrategyOrder[s] + c + 1`
are inside the 40-entry table `kCoeffOrderOffset`. -/
theorem kStrategyOrder_total_in_range (kNumValidStrategies kNumOrders : Nat)
    (hstrat : static_assert_kStrategyOrder kNumValidStrategies)
    (hassert : static_assert_kCoeffOrderOffset kNumOrders) :
    kStrategyOrder.length = kNumValidStrategies ∧ kNumValidStrategies = 27 ∧
    kNumOrders = 13 ∧ kCoeffOrderOffset.length = 40 ∧
    (∀ s, s < kNumValidStrategies →
      kStrategyOrder.getD s 0 < kNumOrders ∧
      ∀ c, c < 3 →
        3 * kStrategyOrder.getD s 0 + c < kCoeffOrderOffset.length ∧
        3 * kStrategyOrder.getD s 0 + c + 1 < kCoeffOrderOffset.length) := by
  have h13 := kNumOrders_eq hassert
  unfold static_assert_kStrategyOrder at hstrat
  rw [kStrategyOrder_length] at hstrat
  subst h13 hstrat
  refine ⟨rfl, rfl, rfl, rfl, ?_⟩
  intro s hs
  have hlt := kStrategyOrder_lt s hs
  refine ⟨hlt, ?_⟩
  intro c hc
  rw [kCoeffOrderOffset_length]
  omega

/-- The last strategy, 26, maps to bucket 12, whose last channel ends at the
last table entry. -/
theorem kStrategyOrder_total_in_range_witness :
    static_assert_kStrategyOrder 27 ∧ static_assert_kCoeffOrderOffset 13 ∧
    kStrategyOrder.getD 26 0 < 13 ∧
    3 * kStrategyOrder.getD 26 0 + 2 + 1 < kCoeffOrderOffset.length :=
  ⟨by decide, by decide,
   ((kStrategyOrder_total_in_range 27 13 (by decide) (by decide)).2.2.2.2 26 (by decide)).1,
   (((kStrategyOrder_total_in_range 27 13 (by decide) (by decide)).2.2.2.2 26 (by decide)).2 2
      (by decide)).2⟩

/-- The three channel sizes of a bucket, read from the table as integers. -/
theorem kCoeffOrderOffset_channel_steps :
    ∀ order, order < 13 →
      (kCoeffOrderOffset.getD (3 * order + 1) 0 : Int) - kCoeffOrderOffset.getD (3 * order) 0
        = (kCoeffOrderOffset.getD (3 * order + 2) 0 : Int)
            - kCoeffOrderOffset.getD (3 * order + 1) 0 ∧
      (kCoeffOrderOffset.getD (3 * order + 2) 0 : Int) - kCoeffOrderOffset.getD (3 * order + 1) 0
        = (kCoeffOrderOffset.getD (3 * order + 3) 0 : Int)
            - kCoeffOrderOffset.getD (3 * order + 2) 0 := by
  decide

/-- The steps of a bucket in the table: the entries of its channels and its end
are `t`, `t + d`, `t + 2 * d`, `t + 3 * d` with the positive channel size
`d = kCoeffOrderOffset[3*order+1] - kCoeffOrderOffset[3*order]`. -/
theorem kCoeffOrderOffset_bucket_entries :
    ∀ order, order < 13 → ∀ c, c < 4 →
      0 < kCoeffOrderOffset.getD (3 * order + 1) 0 - kCoeffOrderOffset.getD (3 * order) 0 ∧
      kCoeffOrderOffset.getD (3 * order + c) 0
        = kCoeffOrderOffset.getD (3 * order) 0
          + c * (kCoeffOrderOffset.getD (3 * order + 1) 0
                  - kCoeffOrderOffset.getD (3 * order) 0) := by
  decide

/-- C8: within every bucket `order < 13` the three channels have the same
size, `kCoeffOrderOffset[3*order+1] - kCoeffOrderOffset[3*order]
= kCoeffOrderOffset[3*order+2] - kCoeffOrderOffset[3*order+1]
= kCoeffOrderOffset[3*order+3] - kCoeffOrderOffset[3*order+2]` (differences taken
in the integers, and positive), and are laid out back to back: in `size_t`
arithmetic the stride `CoeffOrderOffset(order, 1) - CoeffOrderOffset(order, 0)`
is the channel size `(kCoeffOrderOffset[3*order+1] - kCoeffOrderOffset[3*order])
* kDCTBlockSize`, every channel ends one channel size after its start, the next
channel starts there, and `CoeffOrderOffset(order, c) = CoeffOrderOffset(order, 0)
+ c * (CoeffOrderOffset(order, 1) - CoeffOrderOffset(order, 0))` for `c < 3`.
When `kCoeffOrderSize` does not wrap, the same holds in exact arithmetic. -/
theorem CoeffOrderOffset_channels_equal_size (kDCTBlockSize kNumOrders : Nat)
    (hassert : static_assert_kCoeffOrderOffset kNumOrders) :
    kNumOrders = 13 ∧
    ∀ order, order < kNumOrders →
      ((kCoeffOrderOffset.getD (3 * order + 1) 0 : Int) - kCoeffOrderOffset.getD (3 * order) 0
        = (kCoeffOrderOffset.getD (3 * order + 2) 0 : Int)
            - kCoeffOrderOffset.getD (3 * order + 1) 0 ∧
       (kCoeffOrderOffset.getD (3 * order + 2) 0 : Int) - kCoeffOrderOffset.getD (3 * order + 1) 0
        = (kCoeffOrderOffset.getD (3 * order + 3) 0 : Int)
            - kCoeffOrderOffset.getD (3 * order + 2) 0 ∧
       kCoeffOrderOffset.getD (3 * order) 0 < kCoeffOrderOffset.getD (3 * order + 1) 0) ∧
      size_t_sub (CoeffOrderOffset kDCTBlockSize order 1) (CoeffOrderOffset kDCTBlockSize order 0)
        = size_t_mul (kCoeffOrderOffset.getD (3 * order + 1) 0
                        - kCoeffOrderOffset.getD (3 * order) 0) kDCTBlockSize ∧
      (∀ c, c < 3 →
        size_t_mul (kCoeffOrderOffset.getD (3 * order + c + 1) 0) kDCTBlockSize
          = size_t_add (CoeffOrderOffset kDCTBlockSize order c)
              (size_t_mul (kCoeffOrderOffset.getD (3 * order + 1) 0
                            - kCoeffOrderOffset.getD (3 * order) 0) kDCTBlockSize)) ∧
      (∀ c, c + 1 < 3 →
        CoeffOrderOffset kDCTBlockSize order (c + 1)
          = size_t_add (CoeffOrderOffset kDCTBlockSize order c)
              (size_t_mul (kCoeffOrderOffset.getD (3 * order + 1) 0
                            - kCoeffOrderOffset.getD (3 * order) 0) kDCTBlockSize)) ∧
      (∀ c, c < 3 →
        CoeffOrderOffset kDCTBlockSize order c
          = size_t_add (CoeffOrderOffset kDCTBlockSize order 0)
              (size_t_mul c
                (size_t_sub (CoeffOrderOffset kDCTBlockSize order 1)
                  (CoeffOrderOffset kDCTBlockSize order 0)))) ∧
      (kCoeffOrderOffset.getD (3 * kNumOrders) 0 * kDCTBlockSize < 2 ^ 64 →
        CoeffOrderOffset kDCTBlockSize order 1 - CoeffOrderOffset kDCTBlockSize order 0
          = (kCoeffOrderOffset.getD (3 * order + 1) 0
              - kCoeffOrderOffset.getD (3 * order) 0) * kDCTBlockSize ∧
        ∀ c, c < 3 →
          CoeffOrderOffset kDCTBlockSize order c
            = CoeffOrderOffset kDCTBlockSize order 0
              + c * (CoeffOrderOffset kDCTBlockSize order 1
                      - CoeffOrderOffset kDCTBlockSize order 0)) := by
  have h13 := kNumOrders_eq hassert
  subst h13
  refine ⟨rfl, ?_⟩
  intro o ho
  have hsteps := kCoeffOrderOffset_channel_steps o ho
  have hent := kCoeffOrderOffset_bucket_entries o ho
  obtain ⟨hdpos, _⟩ := hent 0 (by decide)
  -- the exact products of the four entries of the bucket
  have hprod : ∀ c, c < 4 →
      kCoeffOrderOffset.getD (3 * o + c) 0 * kDCTBlockSize
        = kCoeffOrderOffset.getD (3 * o) 0 * kDCTBlockSize
          + c * ((kCoeffOrderOffset.getD (3 * o + 1) 0 - kCoeffOrderOffset.getD (3 * o) 0)
                  * kDCTBlockSize) := by
    intro c hc
    conv_lhs => rw [(hent c hc).2]
    ring
  have hp1 := hprod 1 (by decide)
  have hp2 := hprod 2 (by decide)
  have hp3 := hprod 3 (by decide)
  have ho0 := CoeffOrderOffset_eq_mod kDCTBlockSize (o := o) (c := 0) (by omega)
  have ho1 := CoeffOrderOffset_eq_mod kDCTBlockSize (o := o) (c := 1) (by omega)
  have ho2 := CoeffOrderOffset_eq_mod kDCTBlockSize (o := o) (c := 2) (by omega)
  simp only [Nat.add_zero] at ho0
  refine ⟨⟨hsteps.1, hsteps.2, by omega⟩, ?_, ?_, ?_, ?_, ?_⟩
  · rw [ho1, ho0, hp1]
    unfold size_t_sub size_t_mul
    omega
  · intro c hc
    unfold size_t_add size_t_mul
    interval_cases c
    · rw [ho0, hp1]; omega
    · rw [ho1, hp1, hp2]; omega
    · rw [ho2, hp2, hp3]; omega
  · intro c hc
    have hc2 : c < 2 := by omega
    unfold size_t_add size_t_mul
    interval_cases c
    · rw [ho1, ho0, hp1]; omega
    · rw [ho2, ho1, hp1, hp2]; omega
  · intro c hc
    unfold size_t_add size_t_mul size_t_sub
    interval_cases c
    · rw [ho0]; omega
    · rw [ho1, ho0, hp1]; omega
    · rw [ho2, ho1, ho0, hp1, hp2]; omega
  · intro hfit
    have hlast : kCoeffOrderOffset.getD (3 * o + 3) 0 * kDCTBlockSize
        ≤ kCoeffOrderOffset.getD (3 * 13) 0 * kDCTBlockSize :=
      Nat.mul_le_mul_right _ (kCoeffOrderOffset_le_last _)
    rw [Nat.mod_eq_of_lt (by omega)] at ho0 ho1 ho2
    constructor
    · rw [ho1, ho0]; omega
    · intro c hc
      interval_cases c
      · omega
      · rw [ho1, ho0]; omega
      · rw [ho2, ho1, ho0]; omega

/-- Bucket 9 at `kDCTBlockSize = 64`: its channel size is `256 * 64`, channel 1
starts one channel size after channel 0, and channel 2 two. -/
theorem CoeffOrderOffset_channels_equal_size_witness :
    static_assert_kCoeffOrderOffset 13 ∧
    size_t_sub (CoeffOrderOffset 64 9 1) (CoeffOrderOffset 64 9 0)
      = size_t_mul (kCoeffOrderOffset.getD (3 * 9 + 1) 0 - kCoeffOrderOffset.getD (3 * 9) 0) 64 ∧
    CoeffOrderOffset 64 9 2
      = size_t_add (CoeffOrderOffset 64 9 0)
          (size_t_mul 2 (size_t_sub (CoeffOrderOffset 64 9 1) (CoeffOrderOffset 64 9 0))) :=
  ⟨by decide,
   ((CoeffOrderOffset_channels_equal_size 64 13 (by decide)).2 9 (by decide)).2.1,
   ((CoeffOrderOffset_channels_equal_size 64 13 (by decide)).2 9 (by decide)).2.2.2.2.1 2
     (by decide)⟩

/-! ## The memory manager -/

/-- C6: `MemoryManagerInit` returns an error exactly when a manager is passed
in which exactly one of `alloc` and `free` is `NULL`; a `NULL` manager, a
manager with both functions `NULL` and a manager with both functions non-`NULL`
all succeed. -/
theorem MemoryManagerInit_error_iff (self : JxlMemoryManager)
    (memory_manager : Option JxlMemoryManager) :
    ((MemoryManagerInit self memory_manager).1 = false ↔
      ∃ m, memory_manager = some m ∧
        ((m.alloc = AllocFunc.NULL ∧ m.free ≠ FreeFunc.NULL) ∨
         (m.alloc ≠ AllocFunc.NULL ∧ m.free = FreeFunc.NULL))) ∧
    (MemoryManagerInit self none).1 = true ∧
    (∀ m : JxlMemoryManager, m.alloc = AllocFunc.NULL → m.free = FreeFunc.NULL →
      (MemoryManagerInit self (some m)).1 = true) ∧
    (∀ m : JxlMemoryManager, m.alloc ≠ AllocFunc.NULL → m.free ≠ FreeFunc.NULL →
      (MemoryManagerInit self (some m)).1 = true) := by
  refine ⟨?_, rfl, ?_, ?_⟩
  · cases memory_manager with
    | none => simp [MemoryManagerInit, JxlMemoryManager.zeroed]
    | some m =>
      by_cases ha : m.alloc = AllocFunc.NULL <;> by_cases hf : m.free = FreeFunc.NULL <;>
        simp [MemoryManagerInit, ha, hf]
  · intro m ha hf
    simp [MemoryManagerInit, ha, hf]
  · intro m ha hf
    simp [MemoryManagerInit, ha, hf]

/-- C7: when `MemoryManagerInit` succeeds, `self->alloc` and `self->free` are
non-`NULL` afterwards; a passed manager with both functions non-`NULL` is copied
unchanged; a passed manager with both functions `NULL` yields the default
functions and keeps its `opaque`; a `NULL` manager yields the default functions
and a `NULL` `opaque`. -/
theorem MemoryManagerInit_success (self : JxlMemoryManager)
    (memory_manager : Option JxlMemoryManager)
    (hok : (MemoryManagerInit self memory_manager).1 = true) :
    (MemoryManagerInit self memory_manager).2.alloc ≠ AllocFunc.NULL ∧
    (MemoryManagerInit self memory_manager).2.free ≠ FreeFunc.NULL ∧
    (∀ m, memory_manager = some m → m.alloc ≠ AllocFunc.NULL → m.free ≠ FreeFunc.NULL →
      (MemoryManagerInit self memory_manager).2 = m) ∧
    (∀ m, memory_manager = some m → m.alloc = AllocFunc.NULL → m.free = FreeFunc.NULL →
      (MemoryManagerInit self memory_manager).2 =
        { opaquePtr := m.opaquePtr, alloc := AllocFunc.MemoryManagerDefaultAlloc,
          free := FreeFunc.MemoryManagerDefaultFree }) ∧
    (memory_manager = none →
      (MemoryManagerInit self memory_manager).2 =
        { opaquePtr := VoidPtr.NULL, alloc := AllocFunc.MemoryManagerDefaultAlloc,
          free := FreeFunc.MemoryManagerDefaultFree }) := by
  cases memory_manager with
  | none => simp [MemoryManagerInit, JxlMemoryManager.zeroed]
  | some m =>
    by_cases ha : m.alloc = AllocFunc.NULL <;> by_cases hf : m.free = FreeFunc.NULL <;>
      simp [MemoryManagerInit, ha, hf] at hok ⊢

/-- A manager that passes only an `opaque` pointer gets the default functions
and keeps the pointer. -/
theorem MemoryManagerInit_success_witness :
    (MemoryManagerInit JxlMemoryManager.zeroed
        (some { opaquePtr := VoidPtr.addr 7, alloc := AllocFunc.NULL,
                free := FreeFunc.NULL })).1 = true ∧
    (MemoryManagerInit JxlMemoryManager.zeroed
        (some { opaquePtr := VoidPtr.addr 7, alloc := AllocFunc.NULL,
                free := FreeFunc.NULL })).2 =
      { opaquePtr := VoidPtr.addr 7, alloc := AllocFunc.MemoryManagerDefaultAlloc,
        free := FreeFunc.MemoryManagerDefaultFree } :=
  ⟨by decide,
   (MemoryManagerInit_success JxlMemoryManager.zeroed
      (some { opaquePtr := VoidPtr.addr 7, alloc := AllocFunc.NULL, free := FreeFunc.NULL })
      (by decide)).2.2.2.1 _ rfl rfl rfl⟩

/-! ## The permutation codec -/

/-- Writing to a non-empty writer appends what is written to an empty one. -/
theorem WriteRanks_append (code : RankCode) (ranks : List Nat) :
    ∀ (remaining : Nat) (writer : Bits),
      WriteRanks code remaining ranks writer = writer ++ WriteRanks code remaining ranks [] := by
  induction ranks with
  | nil => intro _ w; simp [WriteRanks]
  | cons r rs ih =>
    intro n w
    simp only [WriteRanks]
    rw [ih (n - 1) (w ++ code.write n r), ih (n - 1) ([] ++ code.write n r)]
    simp

/-- The decoding loop inverts the rank coding of any arrangement `slots` of the
available set. -/
theorem DecodeSlots_WriteRanks (code : RankCode) (hcode : code.ReadsBack) (slots : List Nat) :
    ∀ (available : List Nat), available.Nodup → slots.Perm available → ∀ rest : Bits,
      DecodeSlots code slots.length available
        (WriteRanks code available.length (LehmerRanksFrom available slots) [] ++ rest)
        = .ok (slots, rest) := by
  induction slots with
  | nil => intro available _ _ rest; simp [DecodeSlots, LehmerRanksFrom, WriteRanks]
  | cons v slots ih =>
    intro available hnd hperm rest
    have hmem : v ∈ available := hperm.subset (List.mem_cons_self v slots)
    have hlt : available.indexOf v < available.length := List.indexOf_lt_length.mpr hmem
    have hperm' : slots.Perm (available.erase v) := by
      have := hperm.erase v
      simpa using this
    have hlen : (available.erase v).length = available.length - 1 := by
      rw [List.length_erase_of_mem hmem]
    have hget : available.getD (available.indexOf v) 0 = v := by
      rw [List.getD_eq_getElem _ _ hlt]
      exact List.getElem_indexOf hlt
    have ih' := ih (available.erase v) (hnd.erase v) hperm' rest
    simp only [LehmerRanksFrom, WriteRanks, List.length_cons, DecodeSlots]
    rw [WriteRanks_append, List.nil_append, List.append_assoc, hcode _ _ _ hlt]
    simp only [not_le.mpr hlt, if_false, List.eraseIdx_indexOf_eq_erase, hget]
    rw [← hlen, ih']

/-- The bit reader reads back what the bit writer wrote. -/
theorem ReadBits_WriteBits (n : Nat) : ∀ (v : Nat) (rest : Bits), v < 2 ^ n →
    ReadBits n (WriteBits n v ++ rest) = some (v, rest) := by
  induction n with
  | zero => intro v rest hv; simp at hv; subst hv; rfl
  | succ n ih =>
    intro v rest hv
    have hdiv : v / 2 < 2 ^ n := by
      rw [Nat.div_lt_iff_lt_mul (by decide)]
      rw [pow_succ] at hv
      exact hv
    rw [WriteBits, List.cons_append, ReadBits, ih (v / 2) rest hdiv]
    rcases Nat.mod_two_eq_zero_or_one v with h | h
    · simp [h]; omega
    · simp [h]; omega

/-- The width `CeilLog2 n` is enough for every value below `n`. -/
theorem le_two_pow_CeilLog2 (n : Nat) : n ≤ 2 ^ CeilLog2 n := by
  unfold CeilLog2
  cases hfind : (List.range n).find? (fun k => decide (n ≤ 2 ^ k)) with
  | some k =>
    have := List.find?_some hfind
    simpa using this
  | none =>
    rw [List.find?_eq_none] at hfind
    rcases Nat.eq_zero_or_pos n with h0 | hpos
    · subst h0; simp
    · exfalso
      have hmem : n - 1 ∈ List.range n := List.mem_range.mpr (by omega)
      have hnot := hfind (n - 1) hmem
      have hlt : n - 1 < 2 ^ (n - 1) := Nat.lt_two_pow (n - 1)
      simp at hnot
      omega

/-- The fixed-width code meets the contract of the bit reader. -/
theorem fixedWidthCode_ReadsBack : fixedWidthCode.ReadsBack := by
  intro remaining rank rest hlt
  exact ReadBits_WriteBits _ rank rest (lt_of_lt_of_le hlt (le_two_pow_CeilLog2 remaining))

/-- The first `skip` entries of a list that is the identity on them are
`0, ..., skip - 1`. -/
theorem take_eq_range (order : List Nat) (skip size : Nat)
    (hlen : order.length = size) (hs : skip ≤ size)
    (hid : ∀ i, i < skip → order.getD i 0 = i) :
    order.take skip = List.range skip := by
  apply List.ext_getElem
  · simp; omega
  · intro i h1 h2
    have hi : i < skip := by simpa using h2
    have := hid i hi
    rw [List.getD_eq_getElem _ _ (by omega)] at this
    simp [this]

/-- The transmitted slots of a permutation with an identity head of `skip`
entries are an arrangement of `{skip, ..., size - 1}`. -/
theorem drop_perm_range' (order : List Nat) (skip size : Nat)
    (hperm : order.Perm (List.range size))
    (hid : ∀ i, i < skip → order.getD i 0 = i) (hs : skip ≤ size) :
    ((order.take size).drop skip).Perm (List.range' skip (size - skip)) := by
  have hlen : order.length = size := by simpa using hperm.length_eq
  have htake : order.take size = order := by
    rw [← hlen]; exact List.take_length order
  have hhead : order.take skip = List.range skip :=
    take_eq_range order skip size hlen hs hid
  have hsplit : List.range size = List.range skip ++ List.range' skip (size - skip) := by
    rw [List.range_eq_range', List.range_eq_range']
    have := List.range'_append_1 0 skip (size - skip)
    rw [Nat.zero_add, Nat.sub_add_cancel hs] at this
    exact this.symm
  rw [htake]
  have h2 : (order.take skip ++ order.drop skip).Perm
      (List.range skip ++ List.range' skip (size - skip)) := by
    rw [List.take_append_drop, ← hsplit]; exact hperm
  rw [hhead] at h2
  exact (List.perm_append_left_iff _).mp h2

/-- Round trip with trailing bits: the decoder returns `order` and stops right
after the bits of the permutation. -/
theorem DecodePermutation_append (code : RankCode) (hcode : code.ReadsBack)
    (order : List Nat) (skip size : Nat) (hs : skip ≤ size)
    (hperm : order.Perm (List.range size))
    (hid : ∀ i, i < skip → order.getD i 0 = i) (rest : Bits) :
    DecodePermutation code skip size (EncodePermutation code order skip size [] ++ rest)
      = .ok (order, rest) := by
  have hlen : order.length = size := by simpa using hperm.length_eq
  have hslots := drop_perm_range' order skip size hperm hid hs
  have hhead : List.range skip ++ (order.take size).drop skip = order := by
    rw [← take_eq_range order skip size hlen hs hid, ← hlen, List.take_length,
      List.take_append_drop]
  have hcount : ((order.take size).drop skip).length = size - skip := by
    simp [hlen]
  have key := DecodeSlots_WriteRanks code hcode ((order.take size).drop skip)
    (List.range' skip (size - skip)) (List.nodup_range' skip (size - skip)) hslots rest
  rw [hcount, List.length_range'] at key
  unfold DecodePermutation EncodePermutation LehmerRanks
  rw [key]
  simp only [hhead]

/-- The decoder rejects a rank that is not below the number of remaining
candidates, and a stream that ends inside a symbol. -/
theorem DecodePermutation_rejects :
    DecodePermutation fixedWidthCode 1 4 [true, true, false]
      = .error DecodeError.FormatError ∧
    DecodePermutation fixedWidthCode 1 4 [false]
      = .error DecodeError.FormatError := by
  constructor <;> rfl

/-- C1: round trip of the permutation codec.  For every size `N`, every skip
`s < N` and every permutation `order` of `[0, N)` whose first `s` entries are
the identity, `DecodePermutation(s, N, ·)` applied to the bits written by
`EncodePermutation(order, s, N, ·)` succeeds and yields exactly `order` (also
when further bits follow, which are left unread).  For size 4, skip 1 and
order `[0,3,1,2]` the coded Lehmer ranks are `[2,0,0]`, and decoding them gives
back `[0,3,1,2]`. -/
theorem DecodePermutation_EncodePermutation (code : RankCode) (hcode : code.ReadsBack)
    (order : List Nat) (skip size : Nat) (hs : skip < size)
    (hperm : order.Perm (List.range size))
    (hid : ∀ i, i < skip → order.getD i 0 = i) :
    DecodePermutation code skip size (EncodePermutation code order skip size [])
      = .ok (order, []) ∧
    (∀ rest : Bits,
      DecodePermutation code skip size (EncodePermutation code order skip size [] ++ rest)
        = .ok (order, rest)) ∧
    LehmerRanks [0, 3, 1, 2] 1 4 = [2, 0, 0] ∧
    EncodePermutation code [0, 3, 1, 2] 1 4 [] = WriteRanks code 3 [2, 0, 0] [] ∧
    DecodePermutation code 1 4 (WriteRanks code 3 [2, 0, 0] []) = .ok ([0, 3, 1, 2], []) := by
  have hgen := DecodePermutation_append code hcode order skip size (le_of_lt hs) hperm hid
  have hex := DecodePermutation_append code hcode [0, 3, 1, 2] 1 4 (by decide) (by decide)
    (by decide) []
  have hranks : LehmerRanks [0, 3, 1, 2] 1 4 = [2, 0, 0] := by decide
  have henc : EncodePermutation code [0, 3, 1, 2] 1 4 [] = WriteRanks code 3 [2, 0, 0] [] := by
    unfold EncodePermutation
    rw [hranks]
  refine ⟨?_, hgen, hranks, henc, ?_⟩
  · have := hgen []
    rwa [List.append_nil] at this
  · rw [List.append_nil, henc] at hex
    exact hex

/-- The scenario `size = 4`, `skip = 1`, `order = [0,3,1,2]` with the fixed-width
code: rank 2 takes two bits, the next rank one bit, the last rank none. -/
theorem DecodePermutation_EncodePermutation_witness :
    1 < 4 ∧ List.Perm [0, 3, 1, 2] (List.range 4) ∧
    EncodePermutation fixedWidthCode [0, 3, 1, 2] 1 4 [] = [false, true, false] ∧
    DecodePermutation fixedWidthCode 1 4 (EncodePermutation fixedWidthCode [0, 3, 1, 2] 1 4 [])
      = .ok ([0, 3, 1, 2], []) :=
  ⟨by decide, by decide, by decide,
   (DecodePermutation_EncodePermutation fixedWidthCode fixedWidthCode_ReadsBack [0, 3, 1, 2] 1 4
      (by decide) (by decide) (by decide)).1⟩

/-! ## The order builder -/

/-- Reading a sub-array right after writing it gives what was written. -/
theorem ReadSubArray_WriteSubArray (order : Nat → Nat) (offset : Nat) (sub : List Nat) :
    ReadSubArray (WriteSubArray order offset sub) offset sub.length = sub := by
  apply List.ext_getElem
  · simp [ReadSubArray]
  · intro i h1 h2
    simp only [ReadSubArray, List.getElem_map, List.getElem_range, WriteSubArray]
    have hi : i < sub.length := h2
    rw [if_pos ⟨by omega, by omega⟩, Nat.add_sub_cancel_left, List.getD_eq_getElem _ _ hi]

/-- Without skipped positions the built sub-array is the stable sort of the
whole natural order. -/
theorem SortedOrder_skip_zero (zeros : Nat → Nat) (size : Nat) :
    SortedOrder zeros 0 size = (List.range size).insertionSort (FewerZeros zeros) := by
  simp [SortedOrder, List.range_eq_range']

end jxl
